import Mathlib

/-!
Verification of the hetzner-ddns reconciliation engine.

This file gives a shallow embedding of the program's core logic and proves
properties of it:

* `normalizeIP` embeds `Service.normalizeIP` (src/cmd/ddns/main.go), with
  `to4` embedding the semantics of Go's `net.IP.To4`.
* `retryAux` / `retryRun` embed `retry` (src/internal/ddns/retry.go); delays
  are modelled in nanoseconds with Go int64 wrap-around semantics
  (`wrapI64`), since `delay *= 2` is 64-bit machine arithmetic.
* `updateRecord`, `ensureTTL`, `rrsetHasValue` embed the reconciler of
  src/cmd/ddns/main.go as the sequence of remote calls it issues, computed
  (as in the code) from the state returned by the initial lookup only.
* `applyCall` models the external zone capability (the hcloud client, an
  external collaborator described at its interface boundary) so that the
  resulting remote state of a reconciliation can be stated.
* `syncZone` / `syncOnce` embed `Service.syncOnce`, and `runStep` the loop
  body of `Service.Run`.
-/

namespace DDNS

/-! ## String helpers: Go strings.TrimSpace and strings.ToUpper

Modelled structurally over the character list so that the kernel can
evaluate them on literals. Whitespace is the ASCII whitespace relevant to
the strings this program handles (IP literals, record types); Go's
`unicode.IsSpace` also covers exotic Unicode spaces, which never occur
here. -/

/-- ASCII whitespace test used by `trimSpace`. -/
def isSpaceChar (c : Char) : Bool :=
  c == ' ' || c == '\t' || c == '\n' || c == '\r'

/-- Embeds Go's `strings.TrimSpace`: drop leading and trailing whitespace. -/
def trimSpace (s : String) : String :=
  String.mk (((s.data.dropWhile isSpaceChar).reverse.dropWhile isSpaceChar).reverse)

/-- Embeds Go's `strings.ToUpper` for the ASCII record-type strings. -/
def toUpperStr (s : String) : String :=
  String.mk (s.data.map Char.toUpper)

/-! ## IP model: Go net.IP.To4 and Service.normalizeIP -/

/-- An IP address as a list of bytes, as Go's `net.IP` byte slice. -/
abbrev IPBytes := List Nat

/-- Embeds Go's `isZeros` helper used by `net.IP.To4`. -/
def isZeros (bs : IPBytes) : Bool :=
  bs.all (fun b => b == 0)

/-- Embeds Go's `net.IP.To4`: a 4-byte slice is returned as is; a 16-byte
slice that is an IPv4-mapped IPv6 address reduces to its last 4 bytes;
anything else yields `none`. -/
def to4 (ip : IPBytes) : Option IPBytes :=
  if ip.length == 4 then some ip
  else if ip.length == 16 && isZeros (ip.take 10)
      && (ip.getD 10 0 == 255) && (ip.getD 11 0 == 255) then
    some (ip.drop 12)
  else none

/-- Error cases of `Service.normalizeIP`. -/
inductive IPError where
  | nonIPv4ForA
  | ipv4ForAAAA
  | unsupportedType
deriving DecidableEq, Repr

/-- Embeds `Service.normalizeIP` (src/cmd/ddns/main.go lines 169-185).
The success value is the address it would render: for type A the 4-byte
form, for type AAAA the address unchanged (the textual rendering done by
`String()` is not modelled, only which address is returned). -/
def normalizeIP (recordType : String) (ip : IPBytes) : Except IPError IPBytes :=
  let t := toUpperStr (trimSpace recordType)
  if t == "A" then
    match to4 ip with
    | some v4 => Except.ok v4
    | none => Except.error IPError.nonIPv4ForA
  else if t == "AAAA" then
    if (to4 ip).isSome then Except.error IPError.ipv4ForAAAA
    else Except.ok ip
  else Except.error IPError.unsupportedType

/-! ## Retry executor: src/internal/ddns/retry.go -/

/-- Go int64 wrap-around: reduce an integer to the machine value that a
64-bit signed register would hold. -/
def wrapI64 (x : Int) : Int :=
  (x + 2 ^ 63) % 2 ^ 64 - 2 ^ 63

/-- One step of the delay update in `retry`: `delay *= 2` (64-bit) followed
by `if delay > maxDelay { delay = maxDelay }`. -/
def nextDelay (maxDelay delay : Int) : Int :=
  let doubled := wrapI64 (2 * delay)
  if maxDelay < doubled then maxDelay else doubled

/-- The sequence of backoff waits a fully failing run would perform:
`delaySeq base max n` is the delay before attempt `n + 2`. -/
def delaySeq (baseDelay maxDelay : Int) : Nat → Int
  | 0 => baseDelay
  | n + 1 => nextDelay maxDelay (delaySeq baseDelay maxDelay n)

/-- Outcome of a run of the retry executor: how many times the operation
was invoked, the backoff delays waited between attempts, and the final
result (`none` = success, `some e` = the error returned). -/
structure RetryResult (ε : Type) where
  invocations : Nat
  waits : List Int
  result : Option ε
deriving DecidableEq, Repr

/-- Embeds the loop of `retry` (src/internal/ddns/retry.go lines 13-38).
`attempt` is the 1-based attempt counter, `remaining` how many attempts are
still allowed (so the loop runs while `remaining > 0`), `delay` the current
backoff delay. The operation `f` returns `none` on success. On failure
with attempts remaining the executor records the wait and doubles (with
cap) the delay; after the final failed attempt the last error is returned
unchanged. Cancellation is not modelled (the context never fires). -/
def retryAux (f : Nat → Option ε) (maxDelay : Int) :
    (attempt remaining : Nat) → (delay : Int) → RetryResult ε
  | _, 0, _ => ⟨0, [], none⟩
  | a, 1, _ => ⟨1, [], f a⟩
  | a, n + 2, d =>
    match f a with
    | none => ⟨1, [], none⟩
    | some _ =>
      let rest := retryAux f maxDelay (a + 1) (n + 1) (nextDelay maxDelay d)
      ⟨rest.invocations + 1, d :: rest.waits, rest.result⟩

/-- Embeds the `if attempts <= 0 { attempts = 1 }` normalization of `retry`. -/
def effAttempts (attempts : Int) : Nat :=
  if attempts ≤ 0 then 1 else attempts.toNat

/-- Embeds `retry(ctx, attempts, baseDelay, maxDelay, fn)` with a
never-cancelled context. -/
def retryRun (attempts : Int) (baseDelay maxDelay : Int)
    (f : Nat → Option ε) : RetryResult ε :=
  retryAux f maxDelay 1 (effAttempts attempts) baseDelay

/-! ## RRSet reconciler: Service.updateRecord, Service.ensureTTL -/

/-- A remote record set as seen by the engine: a nullable TTL and the
ordered list of record value strings (`hcloud.ZoneRRSet.TTL` and the
`Value` fields of `hcloud.ZoneRRSet.Records`). -/
structure RRSet where
  ttl : Option Int
  records : List String
deriving DecidableEq, Repr

/-- One remote call issued by the reconciler for a record. -/
inductive Call where
  | getRRSet
  | createRRSet (values : List String) (ttl : Option Int)
  | addRecords (values : List String) (ttl : Option Int)
  | setRecords (values : List String)
  | changeTTL (ttl : Int)
deriving DecidableEq, Repr

/-- Embeds `rrsetHasValue` (src/cmd/ddns/main.go lines 291-298): a stored
value counts as the desired one when it matches after trimming surrounding
whitespace from the stored value. -/
def rrsetHasValue (records : List String) (ip : String) : Bool :=
  records.any (fun r => trimSpace r == ip)

/-- Embeds `Service.ensureTTL` (src/cmd/ddns/main.go lines 319-339) as the
TTL-change calls it issues: none when no TTL was resolved, none when the
current remote TTL is set and equals the resolved one, one change call
otherwise. Note the code passes the record set from the initial lookup. -/
def ensureTTL (rrset : RRSet) (ttl : Option Int) : List Call :=
  match ttl with
  | none => []
  | some t =>
    match rrset.ttl with
    | some cur => if cur == t then [] else [Call.changeTTL t]
    | none => [Call.changeTTL t]

/-- Embeds `Service.updateRecord` (src/cmd/ddns/main.go lines 204-289) as
the sequence of remote calls it issues, given the preserve flag, the
desired value, the resolved TTL, and the record set the initial lookup
returned (`none` = record set absent). All remote calls succeed (the
failure-handling around each call is modelled at the orchestrator level).
As in the code, every decision is computed from the initially fetched
record set: results of mutation calls are discarded. -/
def updateRecord (preserve : Bool) (ip : String) (ttl : Option Int)
    (st : Option RRSet) : List Call :=
  Call.getRRSet ::
    match st with
    | none => [Call.createRRSet [ip] ttl]
    | some rrset =>
      if rrsetHasValue rrset.records ip
          && !(!preserve && decide (1 < rrset.records.length)) then
        ensureTTL rrset ttl
      else if preserve && decide (1 < rrset.records.length) then
        Call.addRecords [ip] ttl :: ensureTTL rrset ttl
      else
        Call.setRecords [ip] :: ensureTTL rrset ttl

/-- Modelled from the spec: the external zone capability of §6
(`createRecordSet`, `appendRecordValues`, `replaceRecordValues`,
`changeTTL`), which is not part of this repository. A create installs the
given values and TTL; an append adds the values and, when its TTL argument
is non-null, sets the record-set TTL to it; a replace substitutes the
values and leaves the TTL; a TTL change sets the TTL. -/
def orElseTTL (t old : Option Int) : Option Int :=
  match t with
  | some t2 => some t2
  | none => old

def applyCall (st : Option RRSet) (c : Call) : Option RRSet :=
  match c with
  | Call.getRRSet => st
  | Call.createRRSet vs t => some ⟨t, vs⟩
  | Call.addRecords vs t =>
    match st with
    | some r => some ⟨orElseTTL t r.ttl, r.records ++ vs⟩
    | none => none
  | Call.setRecords vs =>
    match st with
    | some r => some ⟨r.ttl, vs⟩
    | none => none
  | Call.changeTTL t =>
    match st with
    | some r => some ⟨some t, r.records⟩
    | none => none

/-- Apply a sequence of remote calls to the remote state. -/
def applyCalls (st : Option RRSet) (cs : List Call) : Option RRSet :=
  cs.foldl applyCall st

/-- One reconciliation of a record: the calls issued by `updateRecord` and
the remote state they leave behind. -/
def reconcile (preserve : Bool) (ip : String) (ttl : Option Int)
    (st : Option RRSet) : List Call × Option RRSet :=
  let tr := updateRecord preserve ip ttl st
  (tr, applyCalls st tr)

/-- Calls that mutate the value collection. -/
def isValueMutation : Call → Bool
  | Call.createRRSet _ _ => true
  | Call.addRecords _ _ => true
  | Call.setRecords _ => true
  | _ => false

/-- Calls that mutate remote state at all (everything but the lookup). -/
def isMutation : Call → Bool
  | Call.getRRSet => false
  | _ => true

/-! ## Sync cycle orchestrator: Service.syncOnce, Service.Run -/

/-- Embeds `config.RecordConfig`. -/
structure RecordCfg where
  name : String
  ttl : Option Int
deriving DecidableEq, Repr

/-- Embeds `config.ZoneConfig`. -/
structure ZoneCfg where
  name : String
  records : List RecordCfg
  recordType : String
  ipProviderURL : String
  ttl : Option Int
deriving DecidableEq, Repr

/-- The part of `config.Config` the sync cycle reads. -/
structure SyncCfg where
  zones : List ZoneCfg
  retryAttempts : Int
  retryBaseDelay : Int
  retryMaxDelay : Int
deriving DecidableEq, Repr

/-- Oracle for the remote collaborators of one cycle: the single-attempt
outcome of an IP fetch per provider URL (`none` = failure), the
per-attempt outcome of a zone lookup per zone name (`none` = success, as
in `retryRun`), and the overall outcome of `updateRecord` per
(zone, record). -/
structure SyncEnv where
  fetch : String → Option IPBytes
  zoneLookup : String → Nat → Option Unit
  recordUpdate : String → String → Bool

/-- A failure stage recorded for a whole zone, matching the error contexts
of `syncOnce` (ip fetch / ip validation / zone lookup). -/
inductive Stage where
  | ipFetch
  | ipValidation
  | zoneLookup
deriving DecidableEq, Repr

/-- A per-item failure aggregated by the cycle. -/
inductive SyncFailure where
  | zone (zoneName : String) (stage : Stage)
  | record (zoneName recordName : String)
deriving DecidableEq, Repr

/-- TTL resolution for a record: record TTL, else zone TTL
(src/cmd/ddns/main.go lines 152-155). -/
def resolveTTL (z : ZoneCfg) (rec : RecordCfg) : Option Int :=
  match rec.ttl with
  | some t => some t
  | none => z.ttl

/-- What one cycle observably did: the zones it visited, the IP-fetch
invocations it made (one list entry per actual call to the fetcher), the
zone lookups with how often the underlying API call ran, the records it
attempted (with their resolved TTL), and the failures it aggregated. -/
structure SyncTrace where
  zonesVisited : List String
  fetchCalls : List String
  zoneLookupCounts : List (String × Nat)
  recordsAttempted : List (String × String × Option Int)
  failures : List SyncFailure
deriving DecidableEq, Repr

/-- Result of processing one zone inside the cycle: the (possibly updated)
IP cache plus the zone's trace contribution. -/
structure ZoneStep where
  cache : List (String × IPBytes)
  fetchCalls : List String
  zoneLookupCounts : List (String × Nat)
  recordsAttempted : List (String × String × Option Int)
  failures : List SyncFailure
deriving DecidableEq, Repr

/-- The tail of a zone iteration after an IP address is available:
normalize it against the record type, look the zone up through the retry
executor, and attempt every record (src/cmd/ddns/main.go lines 134-161).
A stage failure marks the zone failed and skips its records; a record
failure is recorded and does not stop sibling records. -/
def syncZoneAfterIP (cfg : SyncCfg) (env : SyncEnv)
    (cache : List (String × IPBytes)) (fetchCalls : List String)
    (z : ZoneCfg) (ip : IPBytes) : ZoneStep :=
  match normalizeIP z.recordType ip with
  | Except.error _ =>
    ⟨cache, fetchCalls, [], [], [SyncFailure.zone z.name Stage.ipValidation]⟩
  | Except.ok _ =>
    let r := retryRun cfg.retryAttempts cfg.retryBaseDelay cfg.retryMaxDelay
      (env.zoneLookup z.name)
    match r.result with
    | some _ =>
      ⟨cache, fetchCalls, [(z.name, r.invocations)], [],
        [SyncFailure.zone z.name Stage.zoneLookup]⟩
    | none =>
      ⟨cache, fetchCalls, [(z.name, r.invocations)],
        z.records.map (fun rec => (z.name, rec.name, resolveTTL z rec)),
        z.records.filterMap (fun rec =>
          if env.recordUpdate z.name rec.name then none
          else some (SyncFailure.record z.name rec.name))⟩

/-- One zone iteration of `syncOnce` (src/cmd/ddns/main.go lines 114-161):
consult the per-cycle IP cache; on a miss invoke the fetcher exactly once
(under the request timeout, not through the retry executor) and cache only
a success; a fetch failure marks the zone failed and moves on. -/
def syncZone (cfg : SyncCfg) (env : SyncEnv)
    (cache : List (String × IPBytes)) (z : ZoneCfg) : ZoneStep :=
  match cache.find? (fun p => p.1 == z.ipProviderURL) with
  | some p => syncZoneAfterIP cfg env cache [] z p.2
  | none =>
    match env.fetch z.ipProviderURL with
    | none =>
      ⟨cache, [z.ipProviderURL], [], [],
        [SyncFailure.zone z.name Stage.ipFetch]⟩
    | some ip =>
      syncZoneAfterIP cfg env (cache ++ [(z.ipProviderURL, ip)])
        [z.ipProviderURL] z ip

/-- One iteration of the zone loop of `syncOnce`, threading the IP cache
and accumulating the trace. -/
def syncStep (cfg : SyncCfg) (env : SyncEnv)
    (acc : List (String × IPBytes) × SyncTrace) (z : ZoneCfg) :
    List (String × IPBytes) × SyncTrace :=
  let zs := syncZone cfg env acc.1 z
  (zs.cache,
    ⟨acc.2.zonesVisited ++ [z.name],
     acc.2.fetchCalls ++ zs.fetchCalls,
     acc.2.zoneLookupCounts ++ zs.zoneLookupCounts,
     acc.2.recordsAttempted ++ zs.recordsAttempted,
     acc.2.failures ++ zs.failures⟩)

/-- Embeds `Service.syncOnce`: fold over the configured zones in order,
threading the cycle-scoped IP cache and accumulating the trace. -/
def syncOnce (cfg : SyncCfg) (env : SyncEnv) : SyncTrace :=
  (cfg.zones.foldl (syncStep cfg env) ([], ⟨[], [], [], [], []⟩)).2

/-- The value `syncOnce` returns to the scheduler: `none` on a clean cycle,
otherwise the number of aggregated errors
(src/cmd/ddns/main.go lines 163-166). -/
def syncResult (t : SyncTrace) : Option Nat :=
  if t.failures.isEmpty then none else some t.failures.length

/-- What wakes the scheduler loop of `Service.Run`. -/
inductive LoopSig where
  | cancelled
  | tick
deriving DecidableEq, Repr

/-- Embeds the `select` body of `Service.Run` (src/cmd/ddns/main.go lines
99-108): `true` means the loop keeps running. Cancellation stops the loop;
a tick runs a cycle and continues regardless of the cycle's error value
(which is only logged). -/
def runStep (sig : LoopSig) (cycleResult : Option Nat) : Bool :=
  match sig with
  | LoopSig.cancelled => false
  | LoopSig.tick =>
    match cycleResult with
    | some _ => true
    | none => true


/-! ## Retry structure of the record-level remote operations

`updateRecord` wraps each of its remote calls in `withRetry`
(src/cmd/ddns/main.go lines 208, 220, 255, 274, 327). `updateRecordRetry`
embeds that flow with an attempt-indexed oracle per operation, recording
for each operation performed how often its underlying API call ran. -/

/-- The remote operations of the record flow, one per `withRetry` site of
`updateRecord`/`ensureTTL`. -/
inductive RemoteOp where
  | opGetRRSet
  | opCreateRRSet
  | opAddRecords
  | opSetRecords
  | opChangeTTL
deriving DecidableEq, Repr

/-- The remote operation that executes a reconciler call. -/
def callOp : Call → RemoteOp
  | Call.getRRSet => RemoteOp.opGetRRSet
  | Call.createRRSet _ _ => RemoteOp.opCreateRRSet
  | Call.addRecords _ _ => RemoteOp.opAddRecords
  | Call.setRecords _ => RemoteOp.opSetRecords
  | Call.changeTTL _ => RemoteOp.opChangeTTL

/-- Run one remote operation through the retry executor (`withRetry`):
the (operation, invocation count) entry for the trace, and the final
result. -/
def runOp (attempts baseDelay maxDelay : Int)
    (ops : RemoteOp → Nat → Option Unit) (op : RemoteOp) :
    (RemoteOp × Nat) × Option Unit :=
  let r := retryRun attempts baseDelay maxDelay (ops op)
  ((op, r.invocations), r.result)

/-- Embeds `Service.ensureTTL` with its retried TTL-change call: when the
TTL comparison (the same one `ensureTTL` performs on the looked-up record
set) requires a change, the change call runs through the retry executor;
a failure aborts the record with that error. -/
def ensureTTLRetry (attempts baseDelay maxDelay : Int)
    (ops : RemoteOp → Nat → Option Unit) (rrset : RRSet) (ttl : Option Int) :
    List (RemoteOp × Nat) × Option Unit :=
  match ensureTTL rrset ttl with
  | [] => ([], none)
  | _ :: _ =>
    let o := runOp attempts baseDelay maxDelay ops RemoteOp.opChangeTTL
    ([o.1], o.2)

/-- Embeds `Service.updateRecord` (src/cmd/ddns/main.go lines 204-289)
with each remote call executed through the retry executor: the lookup
first (its transport failure aborts the record), then — as in
`updateRecord` — create, append, or replace as the fetched state `st`
dictates, then the TTL step; the first operation that exhausts its
attempts aborts the record with its error. The trace pairs each operation
performed with how often its underlying call was invoked. -/
def updateRecordRetry (attempts baseDelay maxDelay : Int)
    (ops : RemoteOp → Nat → Option Unit) (preserve : Bool) (ip : String)
    (ttl : Option Int) (st : Option RRSet) :
    List (RemoteOp × Nat) × Option Unit :=
  let g := runOp attempts baseDelay maxDelay ops RemoteOp.opGetRRSet
  match g.2 with
  | some e => ([g.1], some e)
  | none =>
    match st with
    | none =>
      let c := runOp attempts baseDelay maxDelay ops RemoteOp.opCreateRRSet
      ([g.1, c.1], c.2)
    | some rrset =>
      if rrsetHasValue rrset.records ip
          && !(!preserve && decide (1 < rrset.records.length)) then
        let e := ensureTTLRetry attempts baseDelay maxDelay ops rrset ttl
        (g.1 :: e.1, e.2)
      else if preserve && decide (1 < rrset.records.length) then
        let a := runOp attempts baseDelay maxDelay ops RemoteOp.opAddRecords
        match a.2 with
        | some err => ([g.1, a.1], some err)
        | none =>
          let e := ensureTTLRetry attempts baseDelay maxDelay ops rrset ttl
          (g.1 :: a.1 :: e.1, e.2)
      else
        let s := runOp attempts baseDelay maxDelay ops RemoteOp.opSetRecords
        match s.2 with
        | some err => ([g.1, s.1], some err)
        | none =>
          let e := ensureTTLRetry attempts baseDelay maxDelay ops rrset ttl
          (g.1 :: s.1 :: e.1, e.2)

/-! ## Concrete configurations used by counterexamples and witnesses -/

/-- Configuration for the C1 counterexample: one zone whose IP fetch
always fails, with 3 retry attempts configured. -/
def cfgC1 : SyncCfg :=
  ⟨[⟨"example.com", [⟨"@", none⟩], "A", "ip.example", none⟩],
    3, 500000000, 5000000000⟩

/-- Environment for the C1 counterexample: the fetch fails. -/
def envC1 : SyncEnv :=
  ⟨fun _ => none, fun _ _ => some (), fun _ _ => true⟩

/-- Configuration for the C1 witness. -/
def cfgC1w : SyncCfg :=
  ⟨[⟨"example.com", [⟨"@", none⟩], "A", "ip.example", none⟩],
    3, 500000000, 5000000000⟩

/-- Environment for the C1 witness: the fetch succeeds, the zone lookup
always fails. -/
def envC1w : SyncEnv :=
  ⟨fun _ => some [1, 2, 3, 4], fun _ _ => some (), fun _ _ => true⟩

/-- The zone of `cfgC1w`. -/
def zC1w : ZoneCfg := ⟨"example.com", [⟨"@", none⟩], "A", "ip.example", none⟩

/-- Operation oracle for the C1 witness: the replace call always fails,
every other operation succeeds at once. -/
def opsW : RemoteOp → Nat → Option Unit := fun op _ =>
  match op with
  | RemoteOp.opSetRecords => some ()
  | _ => none

/-- All-success operation oracle for the C1 witness. -/
def opsOkW : RemoteOp → Nat → Option Unit := fun _ _ => none

/-- Configuration for the C7 witness: one zone with two records, where
the update of record "www" fails. -/
def cfgC7 : SyncCfg :=
  ⟨[⟨"example.com", [⟨"www", some 300⟩, ⟨"@", none⟩], "A", "ip.example", none⟩],
    3, 500000000, 5000000000⟩

/-- Environment for the C7 witness: fetch and lookup succeed, the update
of every record except "@" fails. -/
def envC7 : SyncEnv :=
  ⟨fun _ => some [203, 0, 113, 5], fun _ _ => none, fun _ rec => rec == "@"⟩

/-- The zone of `cfgC7`. -/
def zC7 : ZoneCfg :=
  ⟨"example.com", [⟨"www", some 300⟩, ⟨"@", none⟩], "A", "ip.example", none⟩

end DDNS

/-! ## Theorems: retry executor -/

namespace DDNS

theorem retryAux_succ_at {ε : Type} (f : Nat → Option ε) (maxDelay : Int) :
    ∀ (k n a : Nat) (d : Int), k + 1 ≤ n →
      (∀ i, i < k → (f (a + i)).isSome = true) → f (a + k) = none →
      (retryAux f maxDelay a n d).invocations = k + 1 ∧
      (retryAux f maxDelay a n d).result = none := by
  intro k
  induction k with
  | zero =>
    intro n a d hn hfail hsucc
    have ha : f a = none := by simpa using hsucc
    match n, hn with
    | 1, _ => simp [retryAux, ha]
    | (m + 2), _ => simp [retryAux, ha]
  | succ j ih =>
    intro n a d hn hfail hsucc
    match n, hn with
    | (m + 2), hn =>
      have ha : (f a).isSome = true := by
        have := hfail 0 (by omega)
        simpa using this
      obtain ⟨e, he⟩ := Option.isSome_iff_exists.mp ha
      have hrec := ih (m + 1) (a + 1) (nextDelay maxDelay d) (by omega)
        (fun i hi => by
          have := hfail (i + 1) (by omega)
          simpa [Nat.add_assoc, Nat.add_comm 1 i] using this)
        (by
          have : a + 1 + j = a + (j + 1) := by omega
          rw [this]; exact hsucc)
      simp [retryAux, he, hrec.1, hrec.2]

theorem delaySeq_shift (maxDelay d : Int) :
    ∀ i, delaySeq d maxDelay (i + 1) = delaySeq (nextDelay maxDelay d) maxDelay i := by
  intro i
  induction i with
  | zero => simp [delaySeq]
  | succ n ih => rw [delaySeq, ih, delaySeq]

theorem retryAux_all_fail {ε : Type} (f : Nat → Option ε) (maxDelay : Int) :
    ∀ (n a : Nat) (d : Int), 1 ≤ n →
      (∀ i, i < n → (f (a + i)).isSome = true) →
      (retryAux f maxDelay a n d).invocations = n ∧
      (retryAux f maxDelay a n d).result = f (a + (n - 1)) ∧
      (retryAux f maxDelay a n d).waits
        = (List.range (n - 1)).map (delaySeq d maxDelay) := by
  intro n
  induction n with
  | zero => intro a d hn; omega
  | succ m ih =>
    intro a d _ hfail
    match m with
    | 0 => simp [retryAux]
    | (m0 + 1) =>
      have ha : (f a).isSome = true := by simpa using hfail 0 (by omega)
      obtain ⟨e, he⟩ := Option.isSome_iff_exists.mp ha
      have hrec := ih (a + 1) (nextDelay maxDelay d) (by omega)
        (fun i hi => by
          have := hfail (i + 1) (by omega)
          simpa [Nat.add_assoc, Nat.add_comm 1 i] using this)
      refine ⟨?_, ?_, ?_⟩
      · simp [retryAux, he, hrec.1]
      · rw [show m0 + 1 + 1 - 1 = m0 + 1 by omega]
        have : a + 1 + (m0 + 1 - 1) = a + (m0 + 1) := by omega
        rw [this] at hrec
        simp [retryAux, he, hrec.2.1]
      · rw [show m0 + 1 + 1 - 1 = m0 + 1 by omega]
        have hw : (retryAux f maxDelay a (m0 + 2) d).waits
            = d :: (retryAux f maxDelay (a + 1) (m0 + 1) (nextDelay maxDelay d)).waits := by
          simp [retryAux, he]
        rw [hw, hrec.2.2, show m0 + 1 - 1 = m0 by omega]
        rw [List.range_succ_eq_map]
        simp [Function.comp, delaySeq_shift]
        rfl

theorem effAttempts_pos (attempts : Int) : 1 ≤ effAttempts attempts := by
  simp only [effAttempts]
  split <;> omega

/-- C5: an operation that fails the first k-1 times and succeeds on attempt
k ≤ maxAttempts is invoked exactly k times and the run succeeds; an
operation that always fails is invoked exactly effAttempts(maxAttempts)
times (once when maxAttempts ≤ 1) and the error of the final invocation is
returned verbatim. -/
theorem claim_c5 {ε : Type} (attempts baseDelay maxDelay : Int)
    (f : Nat → Option ε) (k : Nat) :
    (1 ≤ k → k ≤ effAttempts attempts →
      (∀ i, 1 ≤ i → i < k → (f i).isSome = true) → f k = none →
      (retryRun attempts baseDelay maxDelay f).invocations = k ∧
      (retryRun attempts baseDelay maxDelay f).result = none) ∧
    ((∀ i, (f i).isSome = true) →
      (retryRun attempts baseDelay maxDelay f).invocations = effAttempts attempts ∧
      (retryRun attempts baseDelay maxDelay f).result = f (effAttempts attempts) ∧
      (attempts ≤ 1 → (retryRun attempts baseDelay maxDelay f).invocations = 1)) := by
  constructor
  · intro hk1 hka hfail hsucc
    have h := retryAux_succ_at f maxDelay (k - 1) (effAttempts attempts) 1 baseDelay
      (by omega)
      (fun i hi => hfail (1 + i) (by omega) (by omega))
      (by rw [show 1 + (k - 1) = k by omega]; exact hsucc)
    rw [retryRun]
    exact ⟨by rw [h.1]; omega, h.2⟩
  · intro hfail
    have h := retryAux_all_fail f maxDelay (effAttempts attempts) 1 baseDelay
      (effAttempts_pos attempts) (fun i _ => hfail (1 + i))
    have hpos := effAttempts_pos attempts
    refine ⟨h.1, ?_, fun h1 => ?_⟩
    · rw [retryRun, h.2.1, show 1 + (effAttempts attempts - 1) = effAttempts attempts by omega]
    · rw [retryRun, h.1]
      simp only [effAttempts]
      split <;> omega

/-- Witness for C5 at concrete inputs: an operation failing twice then
succeeding under 5 attempts runs 3 times and succeeds; an operation that
always fails under 2 attempts runs twice and returns its error. -/
theorem claim_c5_witness :
    (1 ≤ 3 ∧ (3 : Nat) ≤ effAttempts 5 ∧
      (retryRun 5 500000000 5000000000
        (fun i => if i < 3 then some 0 else none)).invocations = 3 ∧
      (retryRun 5 500000000 5000000000
        (fun i => if i < 3 then some (0 : Nat) else none)).result = none) ∧
    ((retryRun 2 500000000 5000000000 (fun _ => some (7 : Nat))).invocations = 2 ∧
      (retryRun 2 500000000 5000000000 (fun _ => some (7 : Nat))).result = some 7) := by
  constructor
  · refine ⟨by omega, by decide, ?_⟩
    exact (claim_c5 5 500000000 5000000000
      (fun i => if i < 3 then some (0 : Nat) else none) 3).1
      (by omega) (by decide)
      (fun i h1 h2 => by simp [h2])
      (by norm_num)
  · have h := (claim_c5 2 500000000 5000000000 (fun _ => some (7 : Nat)) 1).2
      (fun i => rfl)
    exact ⟨by rw [h.1]; decide, by rw [h.2.1]⟩

theorem wrapI64_eq_self (x : Int) (h0 : 0 ≤ x) (h1 : x < 2 ^ 63) :
    wrapI64 x = x := by
  rw [wrapI64, Int.emod_eq_of_lt (by omega) (by norm_num; omega)]
  omega

theorem delaySeq_bounds (base max : Int) (h0 : 0 ≤ base) (hbm : base ≤ max)
    (hof : 2 * max < 2 ^ 63) :
    ∀ n, 0 ≤ delaySeq base max n ∧ delaySeq base max n ≤ max := by
  intro n
  induction n with
  | zero => exact ⟨h0, hbm⟩
  | succ m ih =>
    rw [delaySeq, nextDelay]
    have hw : wrapI64 (2 * delaySeq base max m) = 2 * delaySeq base max m :=
      wrapI64_eq_self _ (by omega) (by omega)
    simp only [hw]
    split <;> omega

theorem nextDelay_eq_min (max d : Int) (h0 : 0 ≤ d) (hd : d ≤ max)
    (hof : 2 * max < 2 ^ 63) :
    nextDelay max d = min (2 * d) max := by
  rw [nextDelay]
  have hw : wrapI64 (2 * d) = 2 * d := wrapI64_eq_self _ (by omega) (by omega)
  simp only [hw]
  rcases le_or_lt (2 * d) max with h | h
  · rw [if_neg (by omega), min_eq_left h]
  · rw [if_pos h, min_eq_right (by omega)]

set_option maxRecDepth 4000 in
theorem delaySeq_const_high : ∀ j, delaySeq 500000000 5000000000 (4 + j) = 5000000000 := by
  intro j
  induction j with
  | zero => decide
  | succ m ih =>
    rw [show 4 + (m + 1) = (4 + m) + 1 by omega, delaySeq, ih]
    decide

set_option maxRecDepth 4000 in
/-- C6 amended: on a fully failing run, the waits between attempts follow
`delaySeq`; whenever doubling cannot overflow the int64 delay
(2·maxDelay < 2^63 ns), `delaySeq` is exactly baseDelay-then-capped
doubling; for baseDelay = 500ms and maxDelay = 5s the sequence is exactly
500ms, 1s, 2s, 4s, 5s, 5s, …. -/
theorem claim_c6_amended (attempts : Int) (base max : Int)
    (f : Nat → Option Unit) (n m : Nat) :
    ((∀ i, (f i).isSome = true) →
      (retryRun attempts base max f).waits
        = (List.range (effAttempts attempts - 1)).map (delaySeq base max)) ∧
    (0 ≤ base → base ≤ max → 2 * max < 2 ^ 63 →
      delaySeq base max (n + 1) = min (2 * delaySeq base max n) max) ∧
    ((List.range 6).map (delaySeq 500000000 5000000000)
      = [500000000, 1000000000, 2000000000, 4000000000, 5000000000, 5000000000]) ∧
    (4 ≤ m → delaySeq 500000000 5000000000 m = 5000000000) := by
  refine ⟨?_, ?_, by decide, ?_⟩
  · intro hfail
    exact (retryAux_all_fail f max (effAttempts attempts) 1 base
      (effAttempts_pos attempts) (fun i _ => hfail (1 + i))).2.2
  · intro h0 hbm hof
    rw [delaySeq]
    exact nextDelay_eq_min max _ (delaySeq_bounds base max h0 hbm hof n).1
      (delaySeq_bounds base max h0 hbm hof n).2 hof
  · intro hm
    rw [show m = 4 + (m - 4) by omega]
    exact delaySeq_const_high (m - 4)

set_option maxRecDepth 4000 in
/-- C6 counterexample: with baseDelay 5e18 ns and maxDelay 9e18 ns (both
accepted by the configuration: positive, parseable durations with
maxDelay ≥ baseDelay), the second delay is not capped at maxDelay
(min(2·baseDelay, maxDelay) = 9e18) but wraps to a negative machine
value, so the claimed doubling-capped sequence fails. -/
theorem claim_c6_counterexample :
    delaySeq 5000000000000000000 9000000000000000000 1 = -8446744073709551616 ∧
    delaySeq 5000000000000000000 9000000000000000000 1 ≠ 9000000000000000000 := by
  constructor <;> decide

set_option maxRecDepth 4000 in
/-- Witness for C6 amended at concrete inputs. -/
theorem claim_c6_witness :
    ((retryRun 6 500000000 5000000000 (fun _ => some ())).waits
      = [500000000, 1000000000, 2000000000, 4000000000, 5000000000]) ∧
    (0 ≤ (500000000 : Int) ∧ (500000000 : Int) ≤ 5000000000 ∧
      2 * (5000000000 : Int) < 2 ^ 63 ∧
      delaySeq 500000000 5000000000 1 = min (2 * delaySeq 500000000 5000000000 0) 5000000000) ∧
    (4 ≤ 5 ∧ delaySeq 500000000 5000000000 5 = 5000000000) := by
  refine ⟨?_, ⟨by norm_num, by norm_num, by norm_num, ?_⟩, by norm_num, ?_⟩
  · have h := (claim_c6_amended 6 500000000 5000000000 (fun _ => some ()) 0 5).1
      (fun i => rfl)
    rw [h]; decide
  · exact (claim_c6_amended 6 500000000 5000000000 (fun _ => some ()) 0 5).2.1
      (by norm_num) (by norm_num) (by norm_num)
  · exact (claim_c6_amended 6 500000000 5000000000 (fun _ => some ()) 0 5).2.2.2
      (by norm_num)

/-! ## Theorems: IP normalization -/

/-- C8: for an A record, normalization succeeds exactly when the address
reduces to a 4-byte form; for an AAAA record, it succeeds exactly when the
address does not (so an IPv4-mapped IPv6 address is rejected for AAAA). -/
theorem claim_c8 (ip : IPBytes) :
    ((normalizeIP ("A") ip).isOk = (to4 ip).isSome) ∧
    ((normalizeIP ("AAAA") ip).isOk = !(to4 ip).isSome) := by
  have hA : (toUpperStr (trimSpace ("A")) == "A") = true := by decide
  have hAA1 : (toUpperStr (trimSpace ("AAAA")) == "A") = false := by decide
  have hAA2 : (toUpperStr (trimSpace ("AAAA")) == "AAAA") = true := by decide
  constructor
  · simp only [normalizeIP, hA, if_true]
    cases h : to4 ip <;> simp [Except.isOk, Except.toBool, h]
  · simp only [normalizeIP, hAA1, hAA2]
    cases h : to4 ip <;> simp [Except.isOk, Except.toBool, h]

end DDNS

/-! ## Theorems: RRSet reconciler -/

namespace DDNS

theorem ensureTTL_cases (r : RRSet) (ttl : Option Int) :
    ensureTTL r ttl = [] ∨
      ∃ t, ttl = some t ∧ ensureTTL r ttl = [Call.changeTTL t] := by
  cases ttl with
  | none => exact Or.inl rfl
  | some t =>
    cases hr : r.ttl with
    | none => exact Or.inr ⟨t, rfl, by simp [ensureTTL, hr]⟩
    | some cur =>
      by_cases hc : cur = t
      · exact Or.inl (by simp [ensureTTL, hr, hc])
      · exact Or.inr ⟨t, rfl, by simp [ensureTTL, hr, hc]⟩

theorem applyCalls_ensureTTL_ex (x r : RRSet) (ttl : Option Int) :
    ∃ y, applyCalls (some x) (ensureTTL r ttl) = some y ∧ y.records = x.records := by
  rcases ensureTTL_cases r ttl with h | ⟨t, h1, h2⟩
  · exact ⟨x, by simp [h, applyCalls], rfl⟩
  · exact ⟨⟨some t, x.records⟩, by simp [h2, applyCalls, applyCall], rfl⟩

theorem applyCalls_ensureTTL_records (x r : RRSet) (ttl : Option Int) :
    Option.map RRSet.records (applyCalls (some x) (ensureTTL r ttl)) = some x.records := by
  obtain ⟨y, hy, hyr⟩ := applyCalls_ensureTTL_ex x r ttl
  rw [hy]
  simp [hyr]

theorem two_mem_ne_length {α : Type} (a b : α) (l : List α)
    (ha : a ∈ l) (hb : b ∈ l) (hab : a ≠ b) : 1 < l.length := by
  match l with
  | [] => cases ha
  | [x] =>
    rw [List.mem_singleton] at ha hb
    exact absurd (ha.trans hb.symm) hab
  | x :: y :: tl => simp

theorem singleton_of_mem_len_le {α : Type} (v : α) (l : List α)
    (hv : v ∈ l) (hlen : ¬ 1 < l.length) : l = [v] := by
  match l with
  | [] => cases hv
  | [x] => rw [List.mem_singleton] at hv; rw [hv]
  | x :: y :: tl => simp at hlen

/-- C2 amended: a TTL-change call is issued exactly when the resolved TTL
is non-null and differs from the remote TTL returned by the *initial
lookup* (an unset remote TTL counts as different); the state returned by a
mutation is never consulted, and after a create (absent record set) no TTL
reconciliation runs at all. A null resolved TTL never issues a TTL-change
call. -/
theorem claim_c2_amended (preserve : Bool) (ip : String) (ttl : Option Int)
    (st : Option RRSet) (t : Int) :
    Call.changeTTL t ∈ updateRecord preserve ip ttl st ↔
      ttl = some t ∧ ∃ r, st = some r ∧ r.ttl ≠ some t := by
  cases st with
  | none => simp [updateRecord]
  | some r =>
    have hmem : Call.changeTTL t ∈ updateRecord preserve ip ttl (some r) ↔
        Call.changeTTL t ∈ ensureTTL r ttl := by
      simp only [updateRecord]
      split
      · simp
      · split <;> simp
    rw [hmem]
    cases ttl with
    | none => simp [ensureTTL]
    | some t0 =>
      cases hr : r.ttl with
      | none => simp [ensureTTL, hr, eq_comm]
      | some cur =>
        simp only [ensureTTL, hr]
        by_cases hc : cur = t0
        · simp [hc]
          rintro rfl
          rw [hr, hc]
        · simp [hr]
          constructor <;> intro h <;> omega

/-- C2 counterexample: appending "1.2.3.4" with resolved TTL 300 to a set
whose looked-up TTL is 100. The append call itself carries TTL 300, so the
remote TTL re-read after that mutation is 300, equal to the resolved TTL —
by the claim no TTL-change call should follow — yet the code compares
against the stale pre-mutation TTL 100 and issues `changeTTL 300`. -/
theorem claim_c2_counterexample :
    updateRecord true ("1.2.3.4") (some 300)
        (some (RRSet.mk (some 100) ["9.9.9.9", "8.8.8.8"]))
      = [Call.getRRSet, Call.addRecords ["1.2.3.4"] (some 300), Call.changeTTL 300] ∧
    Option.map RRSet.ttl
        (applyCalls (some (RRSet.mk (some 100) ["9.9.9.9", "8.8.8.8"]))
          ((updateRecord true ("1.2.3.4") (some 300)
            (some (RRSet.mk (some 100) ["9.9.9.9", "8.8.8.8"]))).take 2))
      = some (some 300) := by
  constructor <;> decide

/-- C3 counterexample: with preserve off, desired value "1.2.3.4" and a
single stored value " 1.2.3.4 " (same value with surrounding whitespace),
the reconciliation short-circuits and leaves the stored value untouched:
the resulting collection has zero elements literally equal to the desired
value, not exactly one. -/
theorem claim_c3_counterexample :
    Option.map (fun r => List.count ("1.2.3.4") (RRSet.records r))
      (reconcile false ("1.2.3.4") none (some (RRSet.mk none [" 1.2.3.4 "]))).2
      = some 0 ∧
    Option.map RRSet.records
      (reconcile false ("1.2.3.4") none (some (RRSet.mk none [" 1.2.3.4 "]))).2
      = some [" 1.2.3.4 "] := by
  constructor <;> decide

/-- C3 amended: for every reconciliation with preserve off, the resulting
collection has exactly one element equal to the desired value up to
surrounding whitespace; and when the prior set holds more than one value,
the presence check does not short-circuit: a replace to exactly
[desiredValue] is issued and the result is exactly [desiredValue]. -/
theorem claim_c3_amended (ip : String) (ttl : Option Int) (st : Option RRSet) :
    (∃ t2 v, (reconcile false ip ttl st).2 = some (RRSet.mk t2 [v]) ∧
      (trimSpace v = ip ∨ v = ip)) ∧
    (∀ r, st = some r → 1 < r.records.length →
      Call.setRecords [ip] ∈ updateRecord false ip ttl st ∧
      Option.map RRSet.records (reconcile false ip ttl st).2 = some [ip]) := by
  cases st with
  | none =>
    constructor
    · exact ⟨ttl, ip, by simp [reconcile, updateRecord, applyCalls, applyCall], Or.inr rfl⟩
    · intro r hr; cases hr
  | some r =>
    by_cases hlen : 1 < r.records.length
    · have hd : decide (1 < r.records.length) = true := decide_eq_true hlen
      have htr : updateRecord false ip ttl (some r)
          = Call.getRRSet :: Call.setRecords [ip] :: ensureTTL r ttl := by
        simp [updateRecord, hd]
      have hst : (reconcile false ip ttl (some r)).2
          = applyCalls (some (RRSet.mk r.ttl [ip])) (ensureTTL r ttl) := by
        simp [reconcile, htr, applyCalls, applyCall]
      obtain ⟨y, hy, hyr⟩ := applyCalls_ensureTTL_ex (RRSet.mk r.ttl [ip]) r ttl
      constructor
      · refine ⟨y.ttl, ip, ?_, Or.inr rfl⟩
        rw [hst, hy]
        cases y
        simp_all
      · intro r0 hr0 _
        cases hr0
        refine ⟨by rw [htr]; simp, ?_⟩
        rw [hst, hy]
        simp [hyr]
    · by_cases hv : rrsetHasValue r.records ip = true
      · have hd : decide (1 < r.records.length) = false := decide_eq_false hlen
        have htr : updateRecord false ip ttl (some r)
            = Call.getRRSet :: ensureTTL r ttl := by
          simp [updateRecord, hv, hd]
        have hst : (reconcile false ip ttl (some r)).2
            = applyCalls (some r) (ensureTTL r ttl) := by
          simp [reconcile, htr, applyCalls, applyCall]
        obtain ⟨v, hvmem, hvbeq⟩ := List.any_eq_true.mp hv
        have hvtrim : trimSpace v = ip := by simpa using hvbeq
        have hrec : r.records = [v] := singleton_of_mem_len_le v r.records hvmem hlen
        obtain ⟨y, hy, hyr⟩ := applyCalls_ensureTTL_ex r r ttl
        constructor
        · refine ⟨y.ttl, v, ?_, Or.inl hvtrim⟩
          rw [hst, hy]
          cases y
          simp_all
        · intro r0 hr0 hlen0
          cases hr0
          exact absurd hlen0 hlen
      · have hd : decide (1 < r.records.length) = false := decide_eq_false hlen
        have hvf : rrsetHasValue r.records ip = false := by
          simpa using hv
        have htr : updateRecord false ip ttl (some r)
            = Call.getRRSet :: Call.setRecords [ip] :: ensureTTL r ttl := by
          simp [updateRecord, hvf, hd]
        have hst : (reconcile false ip ttl (some r)).2
            = applyCalls (some (RRSet.mk r.ttl [ip])) (ensureTTL r ttl) := by
          simp [reconcile, htr, applyCalls, applyCall]
        obtain ⟨y, hy, hyr⟩ := applyCalls_ensureTTL_ex (RRSet.mk r.ttl [ip]) r ttl
        constructor
        · refine ⟨y.ttl, ip, ?_, Or.inr rfl⟩
          rw [hst, hy]
          cases y
          simp_all
        · intro r0 hr0 hlen0
          cases hr0
          exact absurd hlen0 hlen

/-- C3 witness: a two-value set with preserve off is replaced by exactly
the desired value. -/
theorem claim_c3_witness :
    Call.setRecords ["1.2.3.4"] ∈ updateRecord false ("1.2.3.4") none
      (some (RRSet.mk none ["7.7.7.7", "8.8.8.8"])) ∧
    Option.map RRSet.records (reconcile false ("1.2.3.4") none
      (some (RRSet.mk none ["7.7.7.7", "8.8.8.8"]))).2 = some ["1.2.3.4"] :=
  (claim_c3_amended ("1.2.3.4") none (some (RRSet.mk none ["7.7.7.7", "8.8.8.8"]))).2
    (RRSet.mk none ["7.7.7.7", "8.8.8.8"]) rfl (by decide)

/-- C4: with preserve on, a remote set holding at least two distinct
values none of which matches the desired value, the only value mutation
issued is an append of the desired value, and the resulting collection is
the prior collection plus the desired value — no prior value is dropped. -/
theorem claim_c4 (ip : String) (ttl : Option Int) (r : RRSet) (a b : String)
    (ha : a ∈ r.records) (hb : b ∈ r.records) (hab : a ≠ b)
    (habs : rrsetHasValue r.records ip = false) :
    (updateRecord true ip ttl (some r)).filter isValueMutation
      = [Call.addRecords [ip] ttl] ∧
    Option.map RRSet.records (reconcile true ip ttl (some r)).2
      = some (r.records ++ [ip]) := by
  have hlen := two_mem_ne_length a b r.records ha hb hab
  have hd : decide (1 < r.records.length) = true := decide_eq_true hlen
  have htr : updateRecord true ip ttl (some r)
      = Call.getRRSet :: Call.addRecords [ip] ttl :: ensureTTL r ttl := by
    simp [updateRecord, habs, hd]
  constructor
  · rw [htr]
    rcases ensureTTL_cases r ttl with h | ⟨t, h1, h2⟩
    · simp [h, isValueMutation]
    · simp [h2, isValueMutation]
  · cases ttl with
    | none =>
      have hst : (reconcile true ip none (some r)).2
          = applyCalls (some (RRSet.mk r.ttl (r.records ++ [ip]))) (ensureTTL r none) := by
        simp [reconcile, htr, applyCalls, applyCall, orElseTTL]
      rw [hst, applyCalls_ensureTTL_records]
    | some t =>
      have hst : (reconcile true ip (some t) (some r)).2
          = applyCalls (some (RRSet.mk (some t) (r.records ++ [ip])))
              (ensureTTL r (some t)) := by
        simp [reconcile, htr, applyCalls, applyCall, orElseTTL]
      rw [hst, applyCalls_ensureTTL_records]

/-- C4 witness: appending to a two-value set that lacks the desired
value. -/
theorem claim_c4_witness :
    ("7.7.7.7" : String) ∈ (RRSet.mk none ["7.7.7.7", "8.8.8.8"]).records ∧
    rrsetHasValue ["7.7.7.7", "8.8.8.8"] ("1.2.3.4") = false ∧
    (updateRecord true ("1.2.3.4") (some 300)
        (some (RRSet.mk none ["7.7.7.7", "8.8.8.8"]))).filter isValueMutation
      = [Call.addRecords ["1.2.3.4"] (some 300)] ∧
    Option.map RRSet.records
        (reconcile true ("1.2.3.4") (some 300)
          (some (RRSet.mk none ["7.7.7.7", "8.8.8.8"]))).2
      = some (["7.7.7.7", "8.8.8.8"] ++ ["1.2.3.4"]) := by
  have h := claim_c4 ("1.2.3.4") (some 300) (RRSet.mk none ["7.7.7.7", "8.8.8.8"])
    ("7.7.7.7") ("8.8.8.8") (by decide) (by decide) (by decide) (by decide)
  exact ⟨by decide, by decide, h.1, h.2⟩

/-- C10: a stored value that equals the desired value after trimming its
surrounding whitespace counts as present, and under the preserve
short-circuit conditions (preserve on, or a set of at most one value) the
set is treated as up to date: no value mutation is issued and the stored
values are left as they are. -/
theorem claim_c10 (preserve : Bool) (ip : String) (ttl : Option Int)
    (r : RRSet) (v : String) (hv : v ∈ r.records) (ht : trimSpace v = ip)
    (hgate : preserve = true ∨ r.records.length ≤ 1) :
    rrsetHasValue r.records ip = true ∧
    (updateRecord preserve ip ttl (some r)).filter isValueMutation = [] ∧
    Option.map RRSet.records (reconcile preserve ip ttl (some r)).2
      = some r.records := by
  have hval : rrsetHasValue r.records ip = true :=
    List.any_eq_true.mpr ⟨v, hv, by rw [ht]; simp⟩
  have hcond : (rrsetHasValue r.records ip
      && !(!preserve && decide (1 < r.records.length))) = true := by
    rcases hgate with h | h
    · subst h; simp [hval]
    · have hd : decide (1 < r.records.length) = false := decide_eq_false (by omega)
      simp [hval, hd]
  have htr : updateRecord preserve ip ttl (some r)
      = Call.getRRSet :: ensureTTL r ttl := by
    simp only [updateRecord]
    rw [if_pos hcond]
  have hst : (reconcile preserve ip ttl (some r)).2
      = applyCalls (some r) (ensureTTL r ttl) := by
    simp [reconcile, htr, applyCalls, applyCall]
  refine ⟨hval, ?_, by rw [hst, applyCalls_ensureTTL_records]⟩
  rw [htr]
  rcases ensureTTL_cases r ttl with h | ⟨t, h1, h2⟩
  · simp [h, isValueMutation]
  · simp [h2, isValueMutation]

/-- C10 witness: a single stored value with surrounding whitespace is
treated as up to date for the matching desired value. -/
theorem claim_c10_witness :
    (" 5.5.5.5 " : String) ∈ (RRSet.mk (some 60) [" 5.5.5.5 "]).records ∧
    trimSpace (" 5.5.5.5 ") = "5.5.5.5" ∧
    rrsetHasValue [" 5.5.5.5 "] ("5.5.5.5") = true ∧
    (updateRecord false ("5.5.5.5") (some 60)
        (some (RRSet.mk (some 60) [" 5.5.5.5 "]))).filter isValueMutation = [] ∧
    Option.map RRSet.records (reconcile false ("5.5.5.5") (some 60)
        (some (RRSet.mk (some 60) [" 5.5.5.5 "]))).2 = some [" 5.5.5.5 "] := by
  have h := claim_c10 false ("5.5.5.5") (some 60) (RRSet.mk (some 60) [" 5.5.5.5 "])
    (" 5.5.5.5 ") (by decide) (by decide) (Or.inr (by decide))
  exact ⟨by decide, by decide, h.1, h.2.1, h.2.2⟩

end DDNS

/-! ## Theorems: idempotence of reconciliation -/

namespace DDNS

theorem ensureTTL_eq_nil_iff (r : RRSet) (t : Int) :
    ensureTTL r (some t) = [] ↔ r.ttl = some t := by
  cases hr : r.ttl with
  | none => simp [ensureTTL, hr]
  | some cur =>
    by_cases hc : cur = t
    · simp [ensureTTL, hr, hc]
    · simp [ensureTTL, hr, hc]

theorem applyCalls_ensureTTL_ttl (x r : RRSet) (t : Int)
    (hx : ensureTTL r (some t) = [] → x.ttl = some t) :
    ∃ y, applyCalls (some x) (ensureTTL r (some t)) = some y ∧
      y.records = x.records ∧ y.ttl = some t := by
  rcases ensureTTL_cases r (some t) with h | ⟨t2, h1, h2⟩
  · exact ⟨x, by simp [h, applyCalls], rfl, hx h⟩
  · have ht2 : t2 = t := by injection h1 with h1e; omega
    subst ht2
    exact ⟨⟨some t2, x.records⟩, by simp [h2, applyCalls, applyCall], rfl, rfl⟩

theorem applyCalls_ensure_post (x r : RRSet) (ttl : Option Int)
    (hx : ∀ t, ttl = some t → ensureTTL r (some t) = [] → x.ttl = some t) :
    ∃ y, applyCalls (some x) (ensureTTL r ttl) = some y ∧
      y.records = x.records ∧ (∀ t, ttl = some t → y.ttl = some t) := by
  cases ttl with
  | none => exact ⟨x, by simp [ensureTTL, applyCalls], rfl, fun t hht => nomatch hht⟩
  | some t =>
    obtain ⟨y, hy, hyr, hyt⟩ := applyCalls_ensureTTL_ttl x r t (hx t rfl)
    refine ⟨y, hy, hyr, fun t2 hht => ?_⟩
    injection hht with he
    rw [he] at hyt
    exact hyt

/-- After one reconciliation of a desired value that carries no
surrounding whitespace, the remote state contains the desired value, its
TTL agrees with any resolved TTL, and when preserve is off the value list
holds at most one value. -/
theorem reconcile_post (preserve : Bool) (ip : String) (ttl : Option Int)
    (st : Option RRSet) (h : trimSpace ip = ip) :
    ∃ r1, (reconcile preserve ip ttl st).2 = some r1 ∧
      rrsetHasValue r1.records ip = true ∧
      (∀ t, ttl = some t → r1.ttl = some t) ∧
      (preserve = false → ¬ 1 < r1.records.length) := by
  have hipval : ∀ l, rrsetHasValue (l ++ [ip]) ip = true := by
    intro l
    simp [rrsetHasValue, List.any_append, h]
  have hipone : rrsetHasValue [ip] ip = true := by
    simp [rrsetHasValue, h]
  cases st with
  | none =>
    refine ⟨⟨ttl, [ip]⟩, by simp [reconcile, updateRecord, applyCalls, applyCall],
      hipone, fun t hht => by rw [hht], fun _ => by simp⟩
  | some r =>
    by_cases hv : rrsetHasValue r.records ip = true
    · by_cases hgate : (!preserve && decide (1 < r.records.length)) = true
      · -- value present but preserve is off and the set holds > 1 values:
        -- fall through to the replace branch
        rw [Bool.and_eq_true] at hgate
        have hp : preserve = false := by
          cases hq : preserve
          · rfl
          · rw [hq] at hgate; simp at hgate
        have htr : updateRecord preserve ip ttl (some r)
            = Call.getRRSet :: Call.setRecords [ip] :: ensureTTL r ttl := by
          simp [updateRecord, hv, hp, hgate.2]
        have hst : (reconcile preserve ip ttl (some r)).2
            = applyCalls (some (RRSet.mk r.ttl [ip])) (ensureTTL r ttl) := by
          simp [reconcile, htr, applyCalls, applyCall]
        obtain ⟨y, hy, hyr, hyt⟩ := applyCalls_ensure_post (RRSet.mk r.ttl [ip]) r ttl
          (fun t _ he => (ensureTTL_eq_nil_iff r t).mp he)
        refine ⟨y, by rw [hst, hy], by rw [hyr]; exact hipone, hyt,
          fun _ => by rw [hyr]; simp⟩
      · -- value present, short-circuit: no value mutation
        have hg : (!preserve && decide (1 < r.records.length)) = false :=
          Bool.eq_false_iff.mpr hgate
        have hcond : (rrsetHasValue r.records ip
            && !(!preserve && decide (1 < r.records.length))) = true := by
          simp [hv, hg]
        have htr : updateRecord preserve ip ttl (some r)
            = Call.getRRSet :: ensureTTL r ttl := by
          simp only [updateRecord]
          rw [if_pos hcond]
        have hst : (reconcile preserve ip ttl (some r)).2
            = applyCalls (some r) (ensureTTL r ttl) := by
          simp [reconcile, htr, applyCalls, applyCall]
        obtain ⟨y, hy, hyr, hyt⟩ := applyCalls_ensure_post r r ttl
          (fun t _ he => (ensureTTL_eq_nil_iff r t).mp he)
        refine ⟨y, by rw [hst, hy], by rw [hyr]; exact hv, hyt, fun hpf => ?_⟩
        rw [hpf] at hg
        simp at hg
        rw [hyr]
        omega
    · have hvf : rrsetHasValue r.records ip = false := Bool.eq_false_iff.mpr hv
      by_cases happ : (preserve && decide (1 < r.records.length)) = true
      · -- value absent, preserving, > 1 values: append
        have hp : preserve = true := by
          rw [Bool.and_eq_true] at happ
          exact happ.1
        have htr : updateRecord preserve ip ttl (some r)
            = Call.getRRSet :: Call.addRecords [ip] ttl :: ensureTTL r ttl := by
          simp [updateRecord, hvf, happ]
        have hst : (reconcile preserve ip ttl (some r)).2
            = applyCalls
                (some (RRSet.mk (orElseTTL ttl r.ttl) (r.records ++ [ip])))
                (ensureTTL r ttl) := by
          simp [reconcile, htr, applyCalls, applyCall]
        obtain ⟨y, hy, hyr, hyt⟩ := applyCalls_ensure_post
          (RRSet.mk (orElseTTL ttl r.ttl) (r.records ++ [ip])) r ttl
          (fun t hht _ => by subst hht; rfl)
        refine ⟨y, by rw [hst, hy], by rw [hyr]; exact hipval r.records, hyt,
          fun hpf => by rw [hp] at hpf; cases hpf⟩
      · -- value absent, not preserving or at most one value: replace
        have hg : (preserve && decide (1 < r.records.length)) = false :=
          Bool.eq_false_iff.mpr happ
        have htr : updateRecord preserve ip ttl (some r)
            = Call.getRRSet :: Call.setRecords [ip] :: ensureTTL r ttl := by
          simp [updateRecord, hvf, hg]
        have hst : (reconcile preserve ip ttl (some r)).2
            = applyCalls (some (RRSet.mk r.ttl [ip])) (ensureTTL r ttl) := by
          simp [reconcile, htr, applyCalls, applyCall]
        obtain ⟨y, hy, hyr, hyt⟩ := applyCalls_ensure_post (RRSet.mk r.ttl [ip]) r ttl
          (fun t _ he => (ensureTTL_eq_nil_iff r t).mp he)
        refine ⟨y, by rw [hst, hy], by rw [hyr]; exact hipone, hyt,
          fun _ => by rw [hyr]; simp⟩

/-- C9: reconciling a second time with the same desired value (which, as a
normalized IP literal, carries no surrounding whitespace) and the same
resolved TTL, on exactly the state the first reconciliation left behind,
issues only the read lookup and no mutation call. -/
theorem claim_c9 (preserve : Bool) (ip : String) (ttl : Option Int)
    (st : Option RRSet) (h : trimSpace ip = ip) :
    (reconcile preserve ip ttl ((reconcile preserve ip ttl st).2)).1
      = [Call.getRRSet] := by
  obtain ⟨r1, h1, h2, h3, h4⟩ := reconcile_post preserve ip ttl st h
  rw [h1]
  show updateRecord preserve ip ttl (some r1) = [Call.getRRSet]
  have hcond : (rrsetHasValue r1.records ip
      && !(!preserve && decide (1 < r1.records.length))) = true := by
    cases hp : preserve
    · have hd : decide (1 < r1.records.length) = false := decide_eq_false (h4 hp)
      simp [h2, hd]
    · simp [h2]
  have htr : updateRecord preserve ip ttl (some r1)
      = Call.getRRSet :: ensureTTL r1 ttl := by
    simp only [updateRecord]
    rw [if_pos hcond]
  rw [htr]
  cases ttl with
  | none => rfl
  | some t => rw [(ensureTTL_eq_nil_iff r1 t).mpr (h3 t rfl)]

/-- C9 witness: a second reconciliation after an append issues only the
lookup. -/
theorem claim_c9_witness :
    trimSpace ("1.2.3.4") = "1.2.3.4" ∧
    (reconcile true ("1.2.3.4") (some 300)
      ((reconcile true ("1.2.3.4") (some 300)
        (some (RRSet.mk (some 100) ["9.9.9.9", "8.8.8.8"]))).2)).1
      = [Call.getRRSet] :=
  ⟨by decide, claim_c9 true ("1.2.3.4") (some 300)
    (some (RRSet.mk (some 100) ["9.9.9.9", "8.8.8.8"])) (by decide)⟩

end DDNS

/-! ## Theorems: sync cycle orchestrator and scheduler -/

namespace DDNS

theorem foldl_syncStep_visited (cfg : SyncCfg) (env : SyncEnv) :
    ∀ (zs : List ZoneCfg) (acc : List (String × IPBytes) × SyncTrace),
      (zs.foldl (syncStep cfg env) acc).2.zonesVisited
        = acc.2.zonesVisited ++ zs.map (fun z => z.name) := by
  intro zs
  induction zs with
  | nil => intro acc; simp
  | cons z zs ih =>
    intro acc
    rw [List.foldl_cons, ih]
    simp [syncStep]

theorem syncZoneAfterIP_attempted (cfg : SyncCfg) (env : SyncEnv)
    (cache : List (String × IPBytes)) (fc : List String) (z : ZoneCfg)
    (ip : IPBytes) :
    (syncZoneAfterIP cfg env cache fc z ip).recordsAttempted = [] ∨
    (syncZoneAfterIP cfg env cache fc z ip).recordsAttempted
      = z.records.map (fun rec => (z.name, rec.name, resolveTTL z rec)) := by
  simp only [syncZoneAfterIP]
  split
  · exact Or.inl rfl
  · split
    · exact Or.inl rfl
    · exact Or.inr rfl

theorem syncZone_attempted (cfg : SyncCfg) (env : SyncEnv)
    (cache : List (String × IPBytes)) (z : ZoneCfg) :
    (syncZone cfg env cache z).recordsAttempted = [] ∨
    (syncZone cfg env cache z).recordsAttempted
      = z.records.map (fun rec => (z.name, rec.name, resolveTTL z rec)) := by
  simp only [syncZone]
  split
  · exact syncZoneAfterIP_attempted cfg env cache [] z _
  · split
    · exact Or.inl rfl
    · exact syncZoneAfterIP_attempted cfg env _ [z.ipProviderURL] z _

/-- C7: the cycle visits every configured zone in order no matter which
operations fail; whenever a zone reaches record processing, every one of
its configured records is attempted (with its resolved TTL), regardless of
sibling record failures; and a tick of the scheduler loop continues no
matter what error value the cycle returned. -/
theorem claim_c7 (cfg : SyncCfg) (env : SyncEnv) :
    (syncOnce cfg env).zonesVisited = cfg.zones.map (fun z => z.name) ∧
    (∀ z cache rec, rec ∈ z.records →
      (syncZone cfg env cache z).recordsAttempted ≠ [] →
      (z.name, rec.name, resolveTTL z rec)
        ∈ (syncZone cfg env cache z).recordsAttempted) ∧
    (∀ e, runStep LoopSig.tick e = true) := by
  refine ⟨?_, ?_, ?_⟩
  · rw [syncOnce, foldl_syncStep_visited]
    rfl
  · intro z cache rec hrec hne
    rcases syncZone_attempted cfg env cache z with h | h
    · exact absurd h hne
    · rw [h]
      exact List.mem_map.mpr ⟨rec, hrec, rfl⟩
  · intro e
    cases e <;> rfl

/-- C7 witness: despite the failing "www" record, the sibling record "@"
is attempted, and the zone is visited. -/
theorem claim_c7_witness :
    (syncOnce cfgC7 envC7).zonesVisited = ["example.com"] ∧
    ("example.com", "@", (none : Option Int))
      ∈ (syncZone cfgC7 envC7 [] zC7).recordsAttempted := by
  constructor
  · rw [(claim_c7 cfgC7 envC7).1]
    rfl
  · exact (claim_c7 cfgC7 envC7).2.1 zC7 [] ⟨"@", none⟩ (by decide) (by decide)

/-- C1 counterexample: with 3 retry attempts configured, a failing IP
fetch is invoked exactly once and its failure is surfaced immediately, so
the fetch is not executed through the retry executor although attempts
remained. -/
theorem claim_c1_counterexample :
    cfgC1.retryAttempts = 3 ∧
    (syncOnce cfgC1 envC1).fetchCalls.length = 1 ∧
    (syncOnce cfgC1 envC1).failures
      = [SyncFailure.zone ("example.com") Stage.ipFetch] := by
  refine ⟨rfl, ?_, ?_⟩ <;> decide

theorem updateRecordRetry_counts (attempts baseDelay maxDelay : Int)
    (ops : RemoteOp → Nat → Option Unit) (preserve : Bool) (ip : String)
    (ttl : Option Int) (st : Option RRSet) :
    ∀ p, p ∈ (updateRecordRetry attempts baseDelay maxDelay ops
        preserve ip ttl st).1 →
      p.2 = (retryRun attempts baseDelay maxDelay (ops p.1)).invocations := by
  intro p hp
  simp only [updateRecordRetry, runOp, ensureTTLRetry] at hp
  split at hp
  · simp at hp
    subst hp
    rfl
  · split at hp
    · simp at hp
      rcases hp with hp | hp <;> subst hp <;> rfl
    · split at hp
      · split at hp
        · simp at hp
          subst hp
          rfl
        · simp at hp
          rcases hp with hp | hp <;> subst hp <;> rfl
      · split at hp
        · split at hp
          · simp at hp
            rcases hp with hp | hp <;> subst hp <;> rfl
          · split at hp
            · simp at hp
              rcases hp with hp | hp <;> subst hp <;> rfl
            · simp at hp
              rcases hp with hp | hp | hp <;> subst hp <;> rfl
        · split at hp
          · simp at hp
            rcases hp with hp | hp <;> subst hp <;> rfl
          · split at hp
            · simp at hp
              rcases hp with hp | hp <;> subst hp <;> rfl
            · simp at hp
              rcases hp with hp | hp | hp <;> subst hp <;> rfl

theorem updateRecordRetry_ops_eq (attempts baseDelay maxDelay : Int)
    (ops : RemoteOp → Nat → Option Unit) (preserve : Bool) (ip : String)
    (ttl : Option Int) (st : Option RRSet)
    (hok : ∀ op, (retryRun attempts baseDelay maxDelay (ops op)).result = none) :
    (updateRecordRetry attempts baseDelay maxDelay ops preserve ip ttl st).1.map
        Prod.fst
      = (updateRecord preserve ip ttl st).map callOp := by
  have hg := hok RemoteOp.opGetRRSet
  have ha := hok RemoteOp.opAddRecords
  have hs := hok RemoteOp.opSetRecords
  have het : ∀ (r : RRSet),
      (ensureTTLRetry attempts baseDelay maxDelay ops r ttl).1.map Prod.fst
        = (ensureTTL r ttl).map callOp := by
    intro r
    rcases ensureTTL_cases r ttl with h | ⟨t, h1, h2⟩
    · simp [ensureTTLRetry, h]
    · simp [ensureTTLRetry, h2, runOp, callOp]
  cases st with
  | none => simp [updateRecordRetry, updateRecord, runOp, hg, callOp]
  | some r =>
    by_cases hv : rrsetHasValue r.records ip = true
    · by_cases hL : 1 < r.records.length
      · have hLle : ¬ r.records.length ≤ 1 := by omega
        cases hp : preserve
        · simp [updateRecordRetry, updateRecord, runOp, hg, hs, hv, hL, hLle,
            het r, callOp]
        · simp [updateRecordRetry, updateRecord, runOp, hg, hv, hL, het r, callOp]
      · have hle : r.records.length ≤ 1 := by omega
        cases hp : preserve <;>
          simp [updateRecordRetry, updateRecord, runOp, hg, hv, hL, hle,
            het r, callOp]
    · have hvf : rrsetHasValue r.records ip = false := Bool.eq_false_iff.mpr hv
      by_cases hL : 1 < r.records.length
      · cases hp : preserve
        · simp [updateRecordRetry, updateRecord, runOp, hg, hs, hvf, hL,
            het r, callOp]
        · simp [updateRecordRetry, updateRecord, runOp, hg, ha, hvf, hL,
            het r, callOp]
      · cases hp : preserve <;>
          simp [updateRecordRetry, updateRecord, runOp, hg, hs, hvf, hL,
            het r, callOp]

/-- C1 amended: every zone-API remote operation is executed through the
Retry Executor, but the IP-provider fetch is not. Concretely: on an
IP-cache miss with a successful fetch and validation, the fetcher is
invoked exactly once (under the request timeout only) while the zone
lookup's invocation count is exactly the retry executor's for the lookup
operation; and in the record flow every operation performed
(get/create/append/replace/TTL-change) has as invocation count exactly
the retry executor's for its oracle — with the operations performed
matching the reconciler's call sequence when every operation succeeds. -/
theorem claim_c1_amended (cfg : SyncCfg) (env : SyncEnv)
    (cache : List (String × IPBytes)) (z : ZoneCfg) (ipb : IPBytes)
    (attempts baseDelay maxDelay : Int) (ops : RemoteOp → Nat → Option Unit)
    (preserve : Bool) (ip : String) (ttl : Option Int) (st : Option RRSet)
    (hmiss : cache.find? (fun p => p.1 == z.ipProviderURL) = none)
    (hfetch : env.fetch z.ipProviderURL = some ipb)
    (hnorm : (normalizeIP z.recordType ipb).isOk = true) :
    (syncZone cfg env cache z).fetchCalls = [z.ipProviderURL] ∧
    (syncZone cfg env cache z).zoneLookupCounts
      = [(z.name, (retryRun cfg.retryAttempts cfg.retryBaseDelay
          cfg.retryMaxDelay (env.zoneLookup z.name)).invocations)] ∧
    (∀ op n, (op, n) ∈ (updateRecordRetry attempts baseDelay maxDelay ops
        preserve ip ttl st).1 →
      n = (retryRun attempts baseDelay maxDelay (ops op)).invocations) ∧
    ((∀ op, (retryRun attempts baseDelay maxDelay (ops op)).result = none) →
      (updateRecordRetry attempts baseDelay maxDelay ops preserve ip ttl st).1.map
          Prod.fst
        = (updateRecord preserve ip ttl st).map callOp) := by
  refine ⟨?_, ?_, ?_, ?_⟩
  · obtain ⟨v, hvv⟩ : ∃ v, normalizeIP z.recordType ipb = Except.ok v := by
      cases hno : normalizeIP z.recordType ipb with
      | error e => rw [hno] at hnorm; simp [Except.isOk, Except.toBool] at hnorm
      | ok v => exact ⟨v, rfl⟩
    simp only [syncZone, hmiss, hfetch, syncZoneAfterIP, hvv]
    cases hres : (retryRun cfg.retryAttempts cfg.retryBaseDelay cfg.retryMaxDelay
        (env.zoneLookup z.name)).result <;> simp [hres]
  · obtain ⟨v, hvv⟩ : ∃ v, normalizeIP z.recordType ipb = Except.ok v := by
      cases hno : normalizeIP z.recordType ipb with
      | error e => rw [hno] at hnorm; simp [Except.isOk, Except.toBool] at hnorm
      | ok v => exact ⟨v, rfl⟩
    simp only [syncZone, hmiss, hfetch, syncZoneAfterIP, hvv]
    cases hres : (retryRun cfg.retryAttempts cfg.retryBaseDelay cfg.retryMaxDelay
        (env.zoneLookup z.name)).result <;> simp [hres]
  · intro op n hmem
    exact updateRecordRetry_counts attempts baseDelay maxDelay ops
      preserve ip ttl st (op, n) hmem
  · intro hok
    exact updateRecordRetry_ops_eq attempts baseDelay maxDelay ops
      preserve ip ttl st hok

/-- C1 witness: the fetch happens once; the always-failing zone lookup is
invoked 3 times; the always-failing replace operation of the record flow
is invoked 3 times (the configured retry budget); with an all-success
oracle the operations performed are exactly the reconciler's calls. -/
theorem claim_c1_witness :
    (syncZone cfgC1w envC1w [] zC1w).fetchCalls = ["ip.example"] ∧
    (syncZone cfgC1w envC1w [] zC1w).zoneLookupCounts = [("example.com", 3)] ∧
    ((RemoteOp.opSetRecords, 3)
        ∈ (updateRecordRetry 3 500000000 5000000000 opsW false ("1.2.3.4") none
          (some (RRSet.mk none ["7.7.7.7", "8.8.8.8"]))).1 ∧
      (3 : Nat) = (retryRun 3 500000000 5000000000
        (opsW RemoteOp.opSetRecords)).invocations) ∧
    (updateRecordRetry 3 500000000 5000000000 opsOkW false ("1.2.3.4") none
        (some (RRSet.mk none ["7.7.7.7", "8.8.8.8"]))).1.map Prod.fst
      = (updateRecord false ("1.2.3.4") none
          (some (RRSet.mk none ["7.7.7.7", "8.8.8.8"]))).map callOp := by
  have h := claim_c1_amended cfgC1w envC1w [] zC1w [1, 2, 3, 4]
    3 500000000 5000000000 opsW false ("1.2.3.4") none
    (some (RRSet.mk none ["7.7.7.7", "8.8.8.8"])) rfl rfl (by decide)
  have h2 := claim_c1_amended cfgC1w envC1w [] zC1w [1, 2, 3, 4]
    3 500000000 5000000000 opsOkW false ("1.2.3.4") none
    (some (RRSet.mk none ["7.7.7.7", "8.8.8.8"])) rfl rfl (by decide)
  refine ⟨h.1, ?_, ⟨by decide, h.2.2.1 RemoteOp.opSetRecords 3 (by decide)⟩,
    h2.2.2.2 (fun op => by cases op <;> rfl)⟩
  rw [h.2.1]
  decide

end DDNS
